import Mathlib

/-!
Verification of the PSA cipher driver adapter (`library/psa_crypto_cipher.c`).

The development shallowly embeds the adapter's data model and operations.
Bytes are modelled as `Nat`, byte buffers as `List Nat`.  The underlying
mbedtls cipher engine (`mbedtls_cipher_setup`, `mbedtls_cipher_setkey`,
`mbedtls_cipher_update`, `mbedtls_cipher_finish`, ...) is an external
collaborator that is not part of the adapter source; its calls are taken as
explicit function parameters, with engine-native error codes already passed
through the pure error-translation function (`mbedtls_to_psa_error`), so an
engine call returns either a success value or a translated non-success
status.
-/

namespace PsaCipher

/-- Status taxonomy of the adapter (PSA status codes used by the source). -/
inductive PsaStatus where
  | success
  | notSupported
  | invalidArgument
  | bufferTooSmall
  | badState
  | corruptionDetected
  | genericError
  | engineFailure
deriving DecidableEq, Repr

/-- Modelled from the spec: PSA algorithm/key-type tag constants tested by the
source.  The macros live in the PSA headers (not under the adapter source);
the numeric encodings are the fixed PSA ABI values that the source's bit
tests (`alg & PSA_ALG_CIPHER_FROM_BLOCK_FLAG`, `PSA_ALG_IS_STREAM_CIPHER`,
`PSA_ALG_IS_CIPHER`) operate on. -/
def PSA_ALG_CATEGORY_MASK : Nat := 0x7f000000

def PSA_ALG_CATEGORY_CIPHER : Nat := 0x04000000

def PSA_ALG_CIPHER_STREAM_FLAG : Nat := 0x00800000

def PSA_ALG_CIPHER_FROM_BLOCK_FLAG : Nat := 0x00400000

def PSA_ALG_STREAM_CIPHER : Nat := 0x04800100

def PSA_ALG_CTR : Nat := 0x04c01000

def PSA_ALG_CFB : Nat := 0x04c01100

def PSA_ALG_OFB : Nat := 0x04c01200

def PSA_ALG_ECB_NO_PADDING : Nat := 0x04404400

def PSA_ALG_CBC_NO_PADDING : Nat := 0x04404000

def PSA_ALG_CBC_PKCS7 : Nat := 0x04404100

/-- Modelled from the spec: `PSA_ALG_IS_STREAM_CIPHER` header macro — an
algorithm tag denotes a stream cipher when its category bits are the cipher
category with the stream flag set. -/
def PSA_ALG_IS_STREAM_CIPHER (alg : Nat) : Bool :=
  alg &&& (PSA_ALG_CATEGORY_MASK ||| PSA_ALG_CIPHER_STREAM_FLAG)
    == PSA_ALG_CATEGORY_CIPHER ||| PSA_ALG_CIPHER_STREAM_FLAG

/-- Modelled from the spec: `PSA_ALG_IS_CIPHER` header macro — a recognized
cipher algorithm tag has the cipher category bits. -/
def PSA_ALG_IS_CIPHER (alg : Nat) : Bool :=
  alg &&& PSA_ALG_CATEGORY_MASK == PSA_ALG_CATEGORY_CIPHER

/-- Modelled from the spec: PSA key-type tag constants from the headers. -/
def PSA_KEY_TYPE_DES : Nat := 0x2301

def PSA_KEY_TYPE_AES : Nat := 0x2400

def PSA_KEY_TYPE_CHACHA20 : Nat := 0x2004

def PSA_KEY_TYPE_CATEGORY_MASK : Nat := 0x7000

def PSA_KEY_TYPE_CATEGORY_SYMMETRIC : Nat := 0x2000

/-- Modelled from the spec: `PSA_BLOCK_CIPHER_BLOCK_LENGTH` header macro —
the block length of a symmetric key type, encoded as a power of two in the
type tag (AES: 16, DES: 8, ChaCha20: 1), and 0 for non-symmetric types. -/
def PSA_BLOCK_CIPHER_BLOCK_LENGTH (type : Nat) : Nat :=
  if type &&& PSA_KEY_TYPE_CATEGORY_MASK == PSA_KEY_TYPE_CATEGORY_SYMMETRIC then
    2 ^ ((type >>> 8) &&& 7)
  else 0

/-- Maximum block length of any supported cipher
(`MBEDTLS_MAX_BLOCK_LENGTH`), the size of the stack scratch buffer used by
`cipher_finish`. -/
def MBEDTLS_MAX_BLOCK_LENGTH : Nat := 16

/-- Modelled from the spec: `mbedtls_platform_zeroize` overwrites a buffer of
the given size with zero bytes. -/
def mbedtls_platform_zeroize (n : Nat) : List Nat := List.replicate n 0

/-- An entry of the engine's cipher-configuration table
(`mbedtls_cipher_info_t`); the adapter only reads its `block_size`. -/
structure CipherInfo where
  block_size : Nat
deriving DecidableEq, Repr

/-- The engine cipher context `mbedtls_cipher_context_t` as seen by the
adapter: the configured cipher information (`NULL` before setup), the
partial-block carry buffer `unprocessed_data[0..unprocessed_len)`, and the
remaining engine-internal state (key schedule, chaining state) of type `σ`. -/
structure CipherCtx (σ : Type) where
  cipher_info : Option CipherInfo
  unprocessed : List Nat
  eng : σ
deriving DecidableEq

/-- The adapter's operation context `mbedtls_psa_cipher_operation_t`. -/
structure Operation (σ : Type) where
  alg : Nat
  iv_size : Nat
  block_size : Nat
  cipher : CipherCtx σ
deriving DecidableEq

/-- Key attributes, `psa_key_attributes_t` core fields read by setup. -/
structure PsaCoreAttributes where
  type : Nat
  bits : Nat
deriving DecidableEq

/-- `psa_key_attributes_t`. -/
structure PsaKeyAttributes where
  core : PsaCoreAttributes
deriving DecidableEq

/-- `mbedtls_operation_t`: the cipher direction. -/
inductive MbedtlsOperation where
  | encrypt
  | decrypt
deriving DecidableEq, Repr

/-- `mbedtls_cipher_padding_t` values passed by the adapter. -/
inductive MbedtlsPadding where
  | padNone
  | padPkcs7
deriving DecidableEq, Repr

/-- Case analysis on a translated engine result: `err` for a non-success
translated status, `ok` for success (mirrors the source's
`if (status != PSA_SUCCESS) goto exit` pattern). -/
def exceptCase {α β : Type} (r : Except PsaStatus α) (err : PsaStatus → β)
    (ok : α → β) : β :=
  match r with
  | Except.error e => err e
  | Except.ok v => ok v

@[simp] theorem exceptCase_error {α β : Type} (e : PsaStatus)
    (err : PsaStatus → β) (ok : α → β) :
    exceptCase (Except.error e) err ok = err e := rfl

@[simp] theorem exceptCase_ok {α β : Type} (v : α) (err : PsaStatus → β)
    (ok : α → β) : exceptCase (Except.ok v) err ok = ok v := rfl

/-- Case analysis on an optional value (mirrors the source's `NULL` check on
the configuration lookup). -/
def optionCase {α β : Type} (r : Option α) (noneCase : β) (someCase : α → β) :
    β :=
  match r with
  | none => noneCase
  | some v => someCase v

@[simp] theorem optionCase_none {α β : Type} (n : β) (s : α → β) :
    optionCase (none : Option α) n s = n := rfl

@[simp] theorem optionCase_some {α β : Type} (v : α) (n : β) (s : α → β) :
    optionCase (some v) n s = s v := rfl

/-- Type of one engine block-transform call on the ECB path: the source's
`mbedtls_cipher_update( ctx, block, block_size, output, &olen )` restricted
to a single full block.  In ECB mode the engine call reads only the key
schedule (no chaining state is written), so it is a function of the block,
returning either the produced bytes or a translated non-success status. -/
abbrev EcbBlockFn := List Nat → Except PsaStatus (List Nat)

/-- The engine's general streaming update (non-ECB path of `cipher_update`):
`mbedtls_cipher_update` on the whole cipher context, which manages the
partial-block carry internally.  Returns the (translated) status, the bytes
written to the caller's output, and the mutated context. -/
abbrev EngUpdateFn (σ : Type) := CipherCtx σ → List Nat →
  PsaStatus × List Nat × CipherCtx σ

/-- The engine's finalize routine `mbedtls_cipher_finish`: returns the
(translated) status, the bytes produced into the scratch buffer, and the
mutated context. -/
abbrev EngFinishFn (σ : Type) := CipherCtx σ → PsaStatus × List Nat × CipherCtx σ

/-- Result of `psa_cipher_update_ecb`: status, bytes written to the caller's
output (`*output_length` bytes), and the final contents of the context's
residual buffer `unprocessed_data[0..unprocessed_len)`. -/
structure EcbResult where
  status : PsaStatus
  output : List Nat
  unprocessed : List Nat
deriving DecidableEq, Repr

/-- The source's `while( input_length >= block_size )` loop in
`psa_cipher_update_ecb` (lines 229-246): run one full block at a time
through the engine, appending each block's output; on an engine failure exit
with the output accumulated so far.  Returns (status, output, remaining
input).  The `0 < bs` guard makes the loop total (the C loop does not
terminate for a zero block size, which cannot occur for a configured
cipher). -/
def ecb_loop (E : EcbBlockFn) (bs : Nat) (input : List Nat) :
    PsaStatus × List Nat × List Nat :=
  if h : 0 < bs ∧ bs ≤ input.length then
    exceptCase (E (input.take bs))
      (fun e => (e, [], input))
      (fun out =>
        let r := ecb_loop E bs (input.drop bs)
        (r.1, out ++ r.2.1, r.2.2))
  else (PsaStatus.success, [], input)
termination_by input.length
decreasing_by
  rw [List.length_drop]
  omega

/-- The tail of `psa_cipher_update_ecb` after the residual top-up phase: the
full-block loop followed, on success, by saving any trailing partial block
into the residual buffer (lines 229-256).  `unp1` is the residual-buffer
contents when the loop is entered (empty if the top-up phase flushed). -/
def ecb_tail (E : EcbBlockFn) (bs : Nat) (unp1 input1 : List Nat) : EcbResult :=
  let r := ecb_loop E bs input1
  if r.1 = PsaStatus.success then
    ⟨PsaStatus.success, r.2.1, unp1 ++ r.2.2⟩
  else ⟨r.1, r.2.1, unp1⟩

/-- `psa_cipher_update_ecb` (source lines 178-260).  `bs` is
`ctx->cipher_info->block_size`, `unprocessed` the residual buffer on entry,
and the result carries the bytes written to the caller's output together
with the residual buffer on exit.  Phase a (lines 197-227) tops up a
nonempty residual from the new input and flushes it through the engine when
it reaches a full block; the loop and trailing save are `ecb_tail`. -/
def psa_cipher_update_ecb (E : EcbBlockFn) (bs : Nat)
    (unprocessed input : List Nat) : EcbResult :=
  if input.length = 0 then ⟨PsaStatus.success, [], unprocessed⟩
  else if 0 < unprocessed.length then
    let bytes_to_copy := min (bs - unprocessed.length) input.length
    let unp := unprocessed ++ input.take bytes_to_copy
    let input1 := input.drop bytes_to_copy
    if unp.length = bs then
      exceptCase (E unp)
        (fun e => ⟨e, [], unp⟩)
        (fun out1 =>
          let r := ecb_tail E bs [] input1
          ⟨r.status, out1 ++ r.output, r.unprocessed⟩)
    else ecb_tail E bs unp input1
  else ecb_tail E bs unprocessed input

/-- Iterated update: feed a sequence of input chunks through successive
`psa_cipher_update_ecb` calls on the same context, concatenating the emitted
output, stopping at the first failure. -/
def update_ecb_many (E : EcbBlockFn) (bs : Nat) (unprocessed : List Nat)
    (chunks : List (List Nat)) : EcbResult :=
  match chunks with
  | [] => ⟨PsaStatus.success, [], unprocessed⟩
  | c :: cs =>
    let r := psa_cipher_update_ecb E bs unprocessed c
    if r.status = PsaStatus.success then
      let r2 := update_ecb_many E bs r.unprocessed cs
      ⟨r2.status, r.output ++ r2.output, r2.unprocessed⟩
    else r

/-- `cipher_update` (source lines 262-310): compute the expected output
size, fail `BufferTooSmall` before any mutation if the caller's capacity is
below it, then dispatch to the ECB compensation path or delegate whole to
the engine. -/
def cipher_update {σ : Type} (E : EcbBlockFn) (engUpd : EngUpdateFn σ)
    (operation : Operation σ) (input : List Nat) (output_size : Nat) :
    PsaStatus × List Nat × Operation σ :=
  let expected_output_size :=
    if !PSA_ALG_IS_STREAM_CIPHER operation.alg then
      (operation.cipher.unprocessed.length + input.length)
        / operation.block_size * operation.block_size
    else input.length
  if output_size < expected_output_size then
    (PsaStatus.bufferTooSmall, [], operation)
  else if operation.alg = PSA_ALG_ECB_NO_PADDING then
    let bs := (operation.cipher.cipher_info.map (fun ci => ci.block_size)).getD 0
    let r := psa_cipher_update_ecb E bs operation.cipher.unprocessed input
    (r.status, r.output,
      { operation with cipher := { operation.cipher with unprocessed := r.unprocessed } })
  else
    let r := engUpd operation.cipher input
    (r.1, r.2.1, { operation with cipher := r.2.2 })

/-- `cipher_finish` (source lines 312-349).  `temp0` is the (arbitrary)
initial content of the stack scratch buffer `temp_output_buffer`; the last
component of the result is that buffer's content when the function returns
(every exit path runs `mbedtls_platform_zeroize` at the `exit` label).  The
second component is the bytes copied into the caller's output buffer. -/
def cipher_finish {σ : Type} (engFin : EngFinishFn σ) (operation : Operation σ)
    (output_size : Nat) (temp0 : List Nat) :
    PsaStatus × List Nat × Operation σ × List Nat :=
  if operation.cipher.unprocessed.length != 0 &&
      (operation.alg == PSA_ALG_ECB_NO_PADDING ||
       operation.alg == PSA_ALG_CBC_NO_PADDING) then
    (PsaStatus.invalidArgument, [], operation,
      mbedtls_platform_zeroize MBEDTLS_MAX_BLOCK_LENGTH)
  else
    let r := engFin operation.cipher
    let operation1 := { operation with cipher := r.2.2 }
    let temp_output_buffer := r.2.1 ++ temp0.drop r.2.1.length
    if r.1 != PsaStatus.success then
      (r.1, [], operation1, mbedtls_platform_zeroize MBEDTLS_MAX_BLOCK_LENGTH)
    else if r.2.1.length == 0 then
      (PsaStatus.success, [], operation1,
        mbedtls_platform_zeroize MBEDTLS_MAX_BLOCK_LENGTH)
    else if r.2.1.length ≤ output_size then
      (PsaStatus.success, temp_output_buffer.take r.2.1.length, operation1,
        mbedtls_platform_zeroize MBEDTLS_MAX_BLOCK_LENGTH)
    else
      (PsaStatus.bufferTooSmall, [], operation1,
        mbedtls_platform_zeroize MBEDTLS_MAX_BLOCK_LENGTH)

/-- `cipher_abort` (source lines 351-361): reject unrecognized algorithm
tags with `BadState`, otherwise free the engine context and report success.
`mbedtls_cipher_free` is the engine's release routine. -/
def cipher_abort {σ : Type} (mbedtls_cipher_free : CipherCtx σ → CipherCtx σ)
    (operation : Operation σ) : PsaStatus × Operation σ :=
  if !PSA_ALG_IS_CIPHER operation.alg then (PsaStatus.badState, operation)
  else (PsaStatus.success,
    { operation with cipher := mbedtls_cipher_free operation.cipher })

/-- The engine entry points consumed by `cipher_setup`:
`mbedtls_cipher_init` produces `initState`, then `mbedtls_cipher_setup`,
`mbedtls_cipher_setkey` and `mbedtls_cipher_set_padding_mode` act on the
engine state, each returning either the new state or a translated
non-success status. -/
structure SetupEngine (σ : Type) where
  initState : σ
  setup : σ → CipherInfo → Except PsaStatus σ
  setkey : σ → List Nat → Nat → MbedtlsOperation → Except PsaStatus σ
  setPadding : σ → MbedtlsPadding → Except PsaStatus σ

/-- `cipher_setup` (source lines 34-120).  `mbedtls_cipher_info_from_psa` is
the engine-configuration lookup keyed by (algorithm, key type, key bits);
it is an external collaborator, passed as a parameter.  The translation
follows the source line by line: init the context, record the algorithm,
look up the configuration, engine setup, the two-key Triple-DES key
expansion quirk, the padding-mode switch, then derive `block_size` and
(conditionally) `iv_size`. -/
def cipher_setup {σ : Type} (eng : SetupEngine σ)
    (mbedtls_cipher_info_from_psa : Nat → Nat → Nat → Option CipherInfo)
    (operation : Operation σ) (attributes : PsaKeyAttributes)
    (key_buffer : List Nat) (key_buffer_size : Nat) (alg : Nat)
    (cipher_operation : MbedtlsOperation) : PsaStatus × Operation σ :=
  let key_type := attributes.core.type
  let key_bits := attributes.core.bits
  let _ := key_buffer_size
  let op1 : Operation σ :=
    { operation with
        alg := alg
        cipher := ⟨none, [], eng.initState⟩ }
  optionCase (mbedtls_cipher_info_from_psa alg key_type key_bits)
    (PsaStatus.notSupported, op1)
    (fun cipher_info =>
      exceptCase (eng.setup op1.cipher.eng cipher_info)
        (fun e => (e, op1))
        (fun s1 =>
          let op2 :=
            { op1 with cipher :=
                { op1.cipher with cipher_info := some cipher_info, eng := s1 } }
          exceptCase
            (if key_type == PSA_KEY_TYPE_DES && key_bits == 128 then
              eng.setkey s1 (key_buffer.take 16 ++ key_buffer.take 8) 192
                cipher_operation
            else eng.setkey s1 key_buffer key_bits cipher_operation)
            (fun e => (e, op2))
            (fun s2 =>
              let op3 := { op2 with cipher := { op2.cipher with eng := s2 } }
              exceptCase
                (if alg == PSA_ALG_CBC_NO_PADDING then
                  eng.setPadding s2 MbedtlsPadding.padNone
                else if alg == PSA_ALG_CBC_PKCS7 then
                  eng.setPadding s2 MbedtlsPadding.padPkcs7
                else Except.ok s2)
                (fun e => (e, op3))
                (fun s3 =>
                  let op4 := { op3 with cipher := { op3.cipher with eng := s3 } }
                  let op5 :=
                    { op4 with block_size :=
                        if PSA_ALG_IS_STREAM_CIPHER alg then 1
                        else PSA_BLOCK_CIPHER_BLOCK_LENGTH key_type }
                  let op6 :=
                    if alg &&& PSA_ALG_CIPHER_FROM_BLOCK_FLAG != 0 &&
                        alg != PSA_ALG_ECB_NO_PADDING then
                      { op5 with iv_size := PSA_BLOCK_CIPHER_BLOCK_LENGTH key_type }
                    else if alg == PSA_ALG_STREAM_CIPHER &&
                        key_type == PSA_KEY_TYPE_CHACHA20 then
                      { op5 with iv_size := 12 }
                    else op5
                  (PsaStatus.success, op6)))))

/-- `cipher_encrypt_setup` (source lines 122-131). -/
def cipher_encrypt_setup {σ : Type} (eng : SetupEngine σ)
    (info : Nat → Nat → Nat → Option CipherInfo) (operation : Operation σ)
    (attributes : PsaKeyAttributes) (key_buffer : List Nat)
    (key_buffer_size : Nat) (alg : Nat) : PsaStatus × Operation σ :=
  cipher_setup eng info operation attributes key_buffer key_buffer_size alg
    MbedtlsOperation.encrypt

/-- `cipher_decrypt_setup` (source lines 133-142). -/
def cipher_decrypt_setup {σ : Type} (eng : SetupEngine σ)
    (info : Nat → Nat → Nat → Option CipherInfo) (operation : Operation σ)
    (attributes : PsaKeyAttributes) (key_buffer : List Nat)
    (key_buffer_size : Nat) (alg : Nat) : PsaStatus × Operation σ :=
  cipher_setup eng info operation attributes key_buffer key_buffer_size alg
    MbedtlsOperation.decrypt

/-- Specification-side view of greedy block splitting: the concatenated
engine outputs over the successive full `bs`-byte blocks of `l`. -/
def blocksOut (f : List Nat → List Nat) (bs : Nat) (l : List Nat) : List Nat :=
  if h : 0 < bs ∧ bs ≤ l.length then
    f (l.take bs) ++ blocksOut f bs (l.drop bs)
  else []
termination_by l.length
decreasing_by
  rw [List.length_drop]
  omega

/-- Specification-side view of greedy block splitting: the trailing part of
`l` (shorter than `bs`) left after removing all full `bs`-byte blocks. -/
def blocksRem (bs : Nat) (l : List Nat) : List Nat :=
  if h : 0 < bs ∧ bs ≤ l.length then blocksRem bs (l.drop bs)
  else l
termination_by l.length
decreasing_by
  rw [List.length_drop]
  omega

/-- Concrete block transform for witnesses: double every byte. -/
def doubleBlock : List Nat → List Nat := fun b => b.map (fun x => 2 * x)

/-- Concrete always-successful engine block call for witnesses. -/
def doubleBlockE : EcbBlockFn := fun b => Except.ok (doubleBlock b)

/-- Concrete general-path engine update for witnesses: echoes the input and
leaves the context unchanged. -/
def idEngUpdate : EngUpdateFn Unit := fun c i => (PsaStatus.success, i, c)

/-- Concrete engine finalize for witnesses: produces no bytes. -/
def emptyEngFinish : EngFinishFn Unit := fun c => (PsaStatus.success, [], c)

/-- Concrete engine finalize that succeeds with one produced byte while
mutating the engine state — the behaviour of a real chaining-mode finalize,
whose padding block advances the chaining state. -/
def countingEngFinish : EngFinishFn Nat :=
  fun c => (PsaStatus.success, [9], ⟨c.cipher_info, c.unprocessed, c.eng + 1⟩)

/-- Concrete always-successful setup engine over a trivial state. -/
def unitEngine : SetupEngine Unit :=
  ⟨(), fun _ _ => Except.ok (), fun _ _ _ _ => Except.ok (),
    fun _ _ => Except.ok ()⟩

/-- Setup engine whose state records the key-schedule invocations
(`mbedtls_cipher_setkey` arguments), most recent first. -/
def recordEngine : SetupEngine (List (List Nat × Nat × MbedtlsOperation)) :=
  ⟨[], fun s _ => Except.ok s, fun s k b d => Except.ok ((k, b, d) :: s),
    fun s _ => Except.ok s⟩

/-- Concrete configuration lookup for witnesses: every triple is supported,
with a 16-byte block. -/
def allInfo16 : Nat → Nat → Nat → Option CipherInfo := fun _ _ _ => some ⟨16⟩

/-- Concrete CBC (no padding) operation over a trivial engine state, for
witnesses. -/
def opCbc16 : Operation Unit :=
  ⟨PSA_ALG_CBC_NO_PADDING, 16, 16, ⟨some ⟨16⟩, [], ()⟩⟩

/-- Concrete raw-ECB operation with a nonempty residual, for witnesses. -/
def opEcbResidual : Operation Unit :=
  ⟨PSA_ALG_ECB_NO_PADDING, 0, 16, ⟨some ⟨16⟩, [1], ()⟩⟩

section EcbLemmas

variable (E : EcbBlockFn) (f : List Nat → List Nat) (bs : Nat)

theorem ecb_loop_ok (hE : ∀ b, E b = Except.ok (f b)) :
    ∀ (n : Nat) (input : List Nat), input.length ≤ n →
      ecb_loop E bs input =
        (PsaStatus.success, blocksOut f bs input, blocksRem bs input) := by
  intro n
  induction n with
  | zero =>
    intro input hlen
    have h : ¬(0 < bs ∧ bs ≤ input.length) := by omega
    rw [ecb_loop, blocksOut, blocksRem, dif_neg h, dif_neg h, dif_neg h]
  | succ n ih =>
    intro input hlen
    by_cases h : 0 < bs ∧ bs ≤ input.length
    · rw [ecb_loop, blocksOut, blocksRem, dif_pos h, dif_pos h, dif_pos h,
        hE, exceptCase_ok]
      rw [ih (input.drop bs) (by rw [List.length_drop]; omega)]
    · rw [ecb_loop, blocksOut, blocksRem, dif_neg h, dif_neg h, dif_neg h]

theorem ecb_tail_ok (hE : ∀ b, E b = Except.ok (f b)) (unp1 input1 : List Nat) :
    ecb_tail E bs unp1 input1 =
      ⟨PsaStatus.success, blocksOut f bs input1, unp1 ++ blocksRem bs input1⟩ := by
  rw [ecb_tail, ecb_loop_ok E f bs hE input1.length input1 le_rfl]
  simp

theorem update_ecb_ok (hE : ∀ b, E b = Except.ok (f b))
    (u input : List Nat) (hbs : 0 < bs) (hu : u.length < bs) :
    psa_cipher_update_ecb E bs u input =
      ⟨PsaStatus.success, blocksOut f bs (u ++ input), blocksRem bs (u ++ input)⟩ := by
  rw [psa_cipher_update_ecb]
  by_cases hin : input.length = 0
  · rw [if_pos hin]
    have hinput : input = [] := List.length_eq_zero.mp hin
    subst hinput
    have h : ¬(0 < bs ∧ bs ≤ (u ++ []).length) := by
      simp only [List.append_nil]
      omega
    rw [blocksOut, blocksRem, dif_neg h, dif_neg h]
    simp
  · rw [if_neg hin]
    by_cases hup : 0 < u.length
    · rw [if_pos hup]
      simp only []
      by_cases hfull : bs - u.length ≤ input.length
      · -- the residual is topped up to a full block and flushed
        have hmin : min (bs - u.length) input.length = bs - u.length :=
          min_eq_left hfull
        have htake : (input.take (bs - u.length)).length = bs - u.length := by
          rw [List.length_take]
          omega
        have hlen : (u ++ input.take (bs - u.length)).length = bs := by
          rw [List.length_append, htake]
          omega
        rw [hmin, if_pos hlen, hE, exceptCase_ok,
          ecb_tail_ok E f bs hE [] (input.drop (bs - u.length))]
        have hfirst : (u ++ input).take bs = u ++ input.take (bs - u.length) := by
          rw [List.take_append_eq_append_take, List.take_of_length_le (by omega)]
        have hrest : (u ++ input).drop bs = input.drop (bs - u.length) := by
          rw [List.drop_append_eq_append_drop, List.drop_of_length_le (by omega)]
          simp
        have hcond : 0 < bs ∧ bs ≤ (u ++ input).length := by
          constructor
          · exact hbs
          · rw [List.length_append]
            omega
        conv_rhs => rw [blocksOut, blocksRem, dif_pos hcond, dif_pos hcond]
        rw [hfirst, hrest]
        simp
      · -- all of the input fits into the residual without completing a block
        have hmin : min (bs - u.length) input.length = input.length := by
          omega
        have htake : input.take input.length = input := by simp
        have hlen : (u ++ input.take input.length).length ≠ bs := by
          rw [htake, List.length_append]
          omega
        rw [hmin, if_neg hlen, htake]
        have hdrop : input.drop input.length = [] := by simp
        rw [hdrop, ecb_tail_ok E f bs hE (u ++ input) []]
        have hnil : ¬(0 < bs ∧ bs ≤ ([] : List Nat).length) := by
          simp
          omega
        have hsh : ¬(0 < bs ∧ bs ≤ (u ++ input).length) := by
          rw [List.length_append]
          omega
        rw [blocksOut, blocksRem, dif_neg hnil, dif_neg hnil,
          blocksOut, blocksRem, dif_neg hsh, dif_neg hsh]
        simp
    · rw [if_neg hup]
      have hunil : u = [] := by
        cases u with
        | nil => rfl
        | cons a l => simp at hup
      subst hunil
      rw [ecb_tail_ok E f bs hE [] input]
      simp

theorem blocksRem_length (hbs : 0 < bs) :
    ∀ (n : Nat) (l : List Nat), l.length ≤ n → (blocksRem bs l).length < bs := by
  intro n
  induction n with
  | zero =>
    intro l hlen
    have h : ¬(0 < bs ∧ bs ≤ l.length) := by omega
    rw [blocksRem, dif_neg h]
    omega
  | succ n ih =>
    intro l hlen
    by_cases h : 0 < bs ∧ bs ≤ l.length
    · rw [blocksRem, dif_pos h]
      exact ih (l.drop bs) (by rw [List.length_drop]; omega)
    · rw [blocksRem, dif_neg h]
      omega

theorem blocks_append (hbs : 0 < bs) :
    ∀ (n : Nat) (l : List Nat), l.length ≤ n → ∀ (m : List Nat),
      blocksOut f bs (l ++ m) =
          blocksOut f bs l ++ blocksOut f bs (blocksRem bs l ++ m) ∧
        blocksRem bs (l ++ m) = blocksRem bs (blocksRem bs l ++ m) := by
  intro n
  induction n with
  | zero =>
    intro l hlen m
    have hl : l = [] := by
      cases l with
      | nil => rfl
      | cons a t => simp at hlen
    subst hl
    have hc : ¬(0 < bs ∧ bs ≤ ([] : List Nat).length) := by
      rw [List.length_nil]
      omega
    have hrem : blocksRem bs ([] : List Nat) = [] := by rw [blocksRem, dif_neg hc]
    have hout : blocksOut f bs ([] : List Nat) = [] := by rw [blocksOut, dif_neg hc]
    simp [hrem, hout]
  | succ n ih =>
    intro l hlen m
    by_cases h : 0 < bs ∧ bs ≤ l.length
    · have htake : (l ++ m).take bs = l.take bs := by
        rw [List.take_append_eq_append_take,
          Nat.sub_eq_zero_of_le h.2, List.take_zero, List.append_nil]
      have hdrop : (l ++ m).drop bs = l.drop bs ++ m := by
        rw [List.drop_append_eq_append_drop, Nat.sub_eq_zero_of_le h.2,
          List.drop_zero]
      have hcond : 0 < bs ∧ bs ≤ (l ++ m).length := by
        rw [List.length_append]
        omega
      have ihr := ih (l.drop bs) (by rw [List.length_drop]; omega) m
      have hstep : blocksRem bs l = blocksRem bs (l.drop bs) := by
        rw [blocksRem, dif_pos h]
      have houtstep : blocksOut f bs l = f (l.take bs) ++ blocksOut f bs (l.drop bs) := by
        rw [blocksOut, dif_pos h]
      constructor
      · conv_lhs => rw [blocksOut, dif_pos hcond]
        rw [htake, hdrop, ihr.1, houtstep, hstep, List.append_assoc]
      · conv_lhs => rw [blocksRem, dif_pos hcond]
        rw [hdrop, ihr.2, hstep]
    · have hrem : blocksRem bs l = l := by rw [blocksRem, dif_neg h]
      have hout : blocksOut f bs l = [] := by rw [blocksOut, dif_neg h]
      rw [hrem, hout]
      simp

end EcbLemmas

section EcbStatusLemmas

variable (E : EcbBlockFn) (bs : Nat)

theorem ecb_loop_status_ne (s : PsaStatus) (hs : s ≠ PsaStatus.success)
    (hEs : ∀ b, E b ≠ Except.error s) :
    ∀ (n : Nat) (input : List Nat), input.length ≤ n →
      (ecb_loop E bs input).1 ≠ s := by
  intro n
  induction n with
  | zero =>
    intro input hlen
    have h : ¬(0 < bs ∧ bs ≤ input.length) := by omega
    rw [ecb_loop, dif_neg h]
    exact fun hc => hs hc.symm
  | succ n ih =>
    intro input hlen
    by_cases h : 0 < bs ∧ bs ≤ input.length
    · rw [ecb_loop, dif_pos h]
      cases hEb : E (input.take bs) with
      | error e =>
        rw [exceptCase_error]
        intro hc
        rw [show e = s from hc] at hEb
        exact hEs _ hEb
      | ok out =>
        rw [exceptCase_ok]
        exact ih (input.drop bs) (by rw [List.length_drop]; omega)
    · rw [ecb_loop, dif_neg h]
      exact fun hc => hs hc.symm

theorem ecb_loop_success_rem (hEok : ∀ b, E b ≠ Except.error PsaStatus.success)
    (hbs : 0 < bs) :
    ∀ (n : Nat) (input : List Nat), input.length ≤ n →
      (ecb_loop E bs input).1 = PsaStatus.success →
      (ecb_loop E bs input).2.2.length < bs := by
  intro n
  induction n with
  | zero =>
    intro input hlen
    have h : ¬(0 < bs ∧ bs ≤ input.length) := by omega
    rw [ecb_loop, dif_neg h]
    intro _
    show input.length < bs
    omega
  | succ n ih =>
    intro input hlen
    by_cases h : 0 < bs ∧ bs ≤ input.length
    · rw [ecb_loop, dif_pos h]
      cases hEb : E (input.take bs) with
      | error e =>
        rw [exceptCase_error]
        intro hc
        rw [show e = PsaStatus.success from hc] at hEb
        exact absurd hEb (hEok _)
      | ok out =>
        rw [exceptCase_ok]
        exact ih (input.drop bs) (by rw [List.length_drop]; omega)
    · rw [ecb_loop, dif_neg h]
      intro _
      show input.length < bs
      omega

theorem ecb_tail_status_ne (s : PsaStatus) (hs : s ≠ PsaStatus.success)
    (hEs : ∀ b, E b ≠ Except.error s) (unp1 input1 : List Nat) :
    (ecb_tail E bs unp1 input1).status ≠ s := by
  rw [ecb_tail]
  by_cases h : (ecb_loop E bs input1).1 = PsaStatus.success
  · rw [if_pos h]
    exact fun hc => hs hc.symm
  · rw [if_neg h]
    exact ecb_loop_status_ne E bs s hs hEs input1.length input1 le_rfl

theorem ecb_tail_nil_rem (hEok : ∀ b, E b ≠ Except.error PsaStatus.success)
    (hbs : 0 < bs) (input1 : List Nat)
    (hst : (ecb_tail E bs [] input1).status = PsaStatus.success) :
    (ecb_tail E bs [] input1).unprocessed.length < bs := by
  rw [ecb_tail] at hst ⊢
  by_cases h : (ecb_loop E bs input1).1 = PsaStatus.success
  · rw [if_pos h]
    simp only [List.nil_append]
    exact ecb_loop_success_rem E bs hEok hbs input1.length input1 le_rfl h
  · rw [if_neg h] at hst
    exact absurd hst h

theorem update_ecb_status_ne (s : PsaStatus) (hs : s ≠ PsaStatus.success)
    (hEs : ∀ b, E b ≠ Except.error s) (u input : List Nat) :
    (psa_cipher_update_ecb E bs u input).status ≠ s := by
  have htail : ∀ unp1 inp1, (ecb_tail E bs unp1 inp1).status ≠ s :=
    fun unp1 inp1 => ecb_tail_status_ne E bs s hs hEs unp1 inp1
  rw [psa_cipher_update_ecb]
  split
  · exact fun hc => hs hc.symm
  · split
    · simp only []
      split
      · cases hEb : E (u ++ input.take (min (bs - u.length) input.length)) with
        | error e =>
          rw [exceptCase_error]
          intro hc
          rw [show e = s from hc] at hEb
          exact hEs _ hEb
        | ok out =>
          rw [exceptCase_ok]
          exact htail [] _
      · exact htail _ _
    · exact htail _ _

end EcbStatusLemmas

/-- Claim C1: for a raw-ECB operation, feeding any sequence of input chunks
through successive `psa_cipher_update_ecb` calls produces, when the engine
block calls succeed, exactly the same result — concatenated output bytes,
final residual buffer, and status — as a single call with the concatenated
input.  Feeding one byte at a time is the instance
`chunks = input.map (fun b => [b])`. -/
theorem ecb_chunked_updates_eq_single (E : EcbBlockFn) (f : List Nat → List Nat)
    (bs : Nat) (u : List Nat) (chunks : List (List Nat)) (hbs : 0 < bs)
    (hu : u.length < bs) (hE : ∀ b, E b = Except.ok (f b)) :
    update_ecb_many E bs u chunks = psa_cipher_update_ecb E bs u chunks.flatten := by
  induction chunks generalizing u with
  | nil =>
    rw [List.flatten_nil, update_ecb_many, update_ecb_ok E f bs hE u [] hbs hu]
    have h0 : ¬(0 < bs ∧ bs ≤ (u ++ []).length) := by
      rw [List.append_nil]
      omega
    rw [blocksOut, dif_neg h0, blocksRem, dif_neg h0, List.append_nil]
  | cons c cs ih =>
    have hrem : (blocksRem bs (u ++ c)).length < bs :=
      blocksRem_length bs hbs (u ++ c).length (u ++ c) le_rfl
    have hab := blocks_append f bs hbs (u ++ c).length (u ++ c) le_rfl cs.flatten
    rw [List.flatten_cons, update_ecb_many, update_ecb_ok E f bs hE u c hbs hu,
      if_pos rfl, ih (blocksRem bs (u ++ c)) hrem,
      update_ecb_ok E f bs hE (blocksRem bs (u ++ c)) cs.flatten hbs hrem,
      update_ecb_ok E f bs hE u (c ++ cs.flatten) hbs hu,
      ← List.append_assoc, hab.1, hab.2]

/-- Witness for C1 at a concrete engine, block size 2, chunks of uneven
lengths. -/
theorem ecb_chunked_updates_eq_single_witness :
    update_ecb_many doubleBlockE 2 [] [[1], [2, 3], [4, 5, 6]] =
      psa_cipher_update_ecb doubleBlockE 2 []
        [[1], [2, 3], [4, 5, 6]].flatten :=
  ecb_chunked_updates_eq_single doubleBlockE doubleBlock 2 []
    [[1], [2, 3], [4, 5, 6]] (by decide) (by decide) (fun b => rfl)

/-- Claim C8: the residual-buffer invariant `residual_length < block_size`
is preserved by every successful `psa_cipher_update_ecb` call — a full block
formed during the call is flushed and the residual reset within that same
call (on an engine failure the operation is abandoned with a non-success
status). -/
theorem ecb_residual_invariant (E : EcbBlockFn) (bs : Nat) (u input : List Nat)
    (hbs : 0 < bs) (hu : u.length < bs)
    (hEok : ∀ b, E b ≠ Except.error PsaStatus.success)
    (hst : (psa_cipher_update_ecb E bs u input).status = PsaStatus.success) :
    (psa_cipher_update_ecb E bs u input).unprocessed.length < bs := by
  rw [psa_cipher_update_ecb] at hst ⊢
  by_cases hin : input.length = 0
  · rw [if_pos hin]
    exact hu
  · rw [if_neg hin] at hst ⊢
    by_cases hup : 0 < u.length
    · rw [if_pos hup] at hst ⊢
      by_cases hfull : bs - u.length ≤ input.length
      · have hmin : min (bs - u.length) input.length = bs - u.length :=
          min_eq_left hfull
        have hlen : (u ++ input.take (min (bs - u.length) input.length)).length = bs := by
          rw [hmin, List.length_append, List.length_take]
          omega
        rw [if_pos hlen] at hst ⊢
        cases hEb : E (u ++ input.take (min (bs - u.length) input.length)) with
        | error e =>
          rw [hEb, exceptCase_error] at hst
          rw [show e = PsaStatus.success from hst] at hEb
          exact absurd hEb (hEok _)
        | ok out =>
          rw [hEb, exceptCase_ok] at hst
          rw [exceptCase_ok]
          exact ecb_tail_nil_rem E bs hEok hbs _ hst
      · have hmin : min (bs - u.length) input.length = input.length := by omega
        have hlen : (u ++ input.take (min (bs - u.length) input.length)).length ≠ bs := by
          rw [hmin, List.length_append, List.length_take]
          omega
        rw [if_neg hlen]
        have hdrop : input.drop (min (bs - u.length) input.length) = [] := by
          rw [hmin, List.drop_length]
        rw [hdrop, ecb_tail]
        have hnil : ¬(0 < bs ∧ bs ≤ ([] : List Nat).length) := by
          rw [List.length_nil]
          omega
      -- hmm placeholder
        rw [ecb_loop, dif_neg hnil, if_pos rfl]
        simp only [List.append_nil]
        rw [hmin, List.length_append, List.length_take]
        omega
    · rw [if_neg hup] at hst ⊢
      have hunil : u = [] := by
        cases u with
        | nil => rfl
        | cons a l => simp at hup
      rw [hunil] at hst ⊢
      exact ecb_tail_nil_rem E bs hEok hbs input hst

/-- Witness for C8: block size 2, residual `[7]` topped up and flushed,
trailing byte `[9]` retained. -/
theorem ecb_residual_invariant_witness :
    (psa_cipher_update_ecb doubleBlockE 2 [7] [8, 9]).unprocessed.length < 2 :=
  ecb_residual_invariant doubleBlockE 2 [7] [8, 9] (by decide) (by decide)
    (fun b h => by simp [doubleBlockE] at h)
    (by rw [update_ecb_ok doubleBlockE doubleBlock 2 (fun b => rfl) [7] [8, 9]
          (by decide) (by decide)])

/-- When the caller's capacity is at least the expected output size,
`cipher_update` cannot fail `BufferTooSmall`, provided the engine calls
never report that status (the engine's streaming update takes no capacity
argument at all, and the translation maps no engine-native cipher error to
`BufferTooSmall`). -/
theorem cipher_update_no_bts_of_capacity {σ : Type} (E : EcbBlockFn)
    (engUpd : EngUpdateFn σ) (operation : Operation σ) (input : List Nat)
    (output_size : Nat)
    (hE : ∀ b, E b ≠ Except.error PsaStatus.bufferTooSmall)
    (hEng : ∀ c i, (engUpd c i).1 ≠ PsaStatus.bufferTooSmall)
    (hcap : ¬output_size <
      (if !PSA_ALG_IS_STREAM_CIPHER operation.alg then
        (operation.cipher.unprocessed.length + input.length)
          / operation.block_size * operation.block_size
      else input.length)) :
    (cipher_update E engUpd operation input output_size).1 ≠
      PsaStatus.bufferTooSmall := by
  rw [cipher_update]
  simp only []
  rw [if_neg hcap]
  by_cases halg : operation.alg = PSA_ALG_ECB_NO_PADDING
  · rw [if_pos halg]
    intro h
    exact update_ecb_status_ne E _ PsaStatus.bufferTooSmall (by decide) hE
      operation.cipher.unprocessed input h
  · rw [if_neg halg]
    intro h
    exact hEng operation.cipher input h

/-- Claim C5: `cipher_update`'s expected output length is
`floor((residual_length + input_length) / block_size) * block_size` for
block-cipher algorithms and exactly `input_length` for stream ciphers, and
the call returns `BufferTooSmall` if and only if the caller's capacity is
below that expected length (given that neither the ECB block call nor the
engine's streaming update ever report `BufferTooSmall` themselves). -/
theorem cipher_update_buffer_too_small_iff {σ : Type} (E : EcbBlockFn)
    (engUpd : EngUpdateFn σ) (operation : Operation σ) (input : List Nat)
    (output_size : Nat)
    (hE : ∀ b, E b ≠ Except.error PsaStatus.bufferTooSmall)
    (hEng : ∀ c i, (engUpd c i).1 ≠ PsaStatus.bufferTooSmall) :
    (cipher_update E engUpd operation input output_size).1 =
        PsaStatus.bufferTooSmall ↔
      output_size <
        (if !PSA_ALG_IS_STREAM_CIPHER operation.alg then
          (operation.cipher.unprocessed.length + input.length)
            / operation.block_size * operation.block_size
        else input.length) := by
  constructor
  · intro h
    by_contra hcap
    exact cipher_update_no_bts_of_capacity E engUpd operation input output_size
      hE hEng hcap h
  · intro h
    rw [cipher_update]
    simp only []
    rw [if_pos h]

/-- Witness for C5 on a concrete block-cipher operation: capacity 5 is not
below the expected length 0 for a 3-byte input, and the call indeed does not
fail `BufferTooSmall`. -/
theorem cipher_update_buffer_too_small_iff_witness :
    (cipher_update doubleBlockE idEngUpdate opCbc16 [1, 2, 3] 5).1 =
        PsaStatus.bufferTooSmall ↔ 5 < 0 :=
  cipher_update_buffer_too_small_iff doubleBlockE idEngUpdate opCbc16 [1, 2, 3]
    5 (fun b h => by simp [doubleBlockE] at h)
    (fun c i h => by simp [idEngUpdate] at h)

/-- Claim C2 (amended): when `cipher_update` returns `BufferTooSmall` the
operation is returned unchanged with no output, a retry from the returned
state coincides with a call from the original state at any capacity, and a
retry with sufficient capacity does not fail `BufferTooSmall`.  (For
`cipher_finish` the analogous statement fails: the engine finalize runs
before the capacity check.) -/
theorem cipher_update_buffer_too_small_retryable {σ : Type} (E : EcbBlockFn)
    (engUpd : EngUpdateFn σ) (operation : Operation σ) (input : List Nat)
    (output_size : Nat)
    (hE : ∀ b, E b ≠ Except.error PsaStatus.bufferTooSmall)
    (hEng : ∀ c i, (engUpd c i).1 ≠ PsaStatus.bufferTooSmall)
    (hbts : (cipher_update E engUpd operation input output_size).1 =
      PsaStatus.bufferTooSmall) :
    (cipher_update E engUpd operation input output_size).2.2 = operation ∧
      (cipher_update E engUpd operation input output_size).2.1 = [] ∧
      ∀ output_size2 : Nat,
        cipher_update E engUpd
            ((cipher_update E engUpd operation input output_size).2.2) input
            output_size2 =
          cipher_update E engUpd operation input output_size2 ∧
        ((if !PSA_ALG_IS_STREAM_CIPHER operation.alg then
            (operation.cipher.unprocessed.length + input.length)
              / operation.block_size * operation.block_size
          else input.length) ≤ output_size2 →
          (cipher_update E engUpd operation input output_size2).1 ≠
            PsaStatus.bufferTooSmall) := by
  have hcap : output_size <
      (if !PSA_ALG_IS_STREAM_CIPHER operation.alg then
        (operation.cipher.unprocessed.length + input.length)
          / operation.block_size * operation.block_size
      else input.length) := by
    by_contra hcap
    exact cipher_update_no_bts_of_capacity E engUpd operation input output_size
      hE hEng hcap hbts
  have hfail : cipher_update E engUpd operation input output_size =
      (PsaStatus.bufferTooSmall, [], operation) := by
    rw [cipher_update]
    simp only []
    rw [if_pos hcap]
  rw [hfail]
  refine ⟨rfl, rfl, fun output_size2 => ⟨rfl, fun hge => ?_⟩⟩
  exact cipher_update_no_bts_of_capacity E engUpd operation input output_size2
    hE hEng (not_lt.mpr hge)

/-- Witness for C2's amended theorem: a 16-byte input into a 16-byte-block
CBC operation with zero capacity fails `BufferTooSmall` and leaves the
operation unchanged. -/
theorem cipher_update_buffer_too_small_retryable_witness :
    (cipher_update doubleBlockE idEngUpdate opCbc16 (List.replicate 16 1) 0).2.2
      = opCbc16 :=
  (cipher_update_buffer_too_small_retryable doubleBlockE idEngUpdate opCbc16
    (List.replicate 16 1) 0 (fun b h => by simp [doubleBlockE] at h)
    (fun c i h => by simp [idEngUpdate] at h) rfl).1

/-- Counterexample to claim C2 as stated: with an engine finalize that
succeeds, produces one byte and advances the engine state — the behaviour
of a chaining-mode finalize — `cipher_finish` with zero capacity returns
`BufferTooSmall`, yet the operation's engine state is not what it was
before the call, because the engine finalize runs before the capacity
check. -/
theorem cipher_finish_bts_mutates_counterexample :
    (cipher_finish countingEngFinish
        (⟨PSA_ALG_CBC_PKCS7, 16, 16, ⟨some ⟨16⟩, [], 0⟩⟩ : Operation Nat) 0
        (List.replicate 16 0)).1 = PsaStatus.bufferTooSmall ∧
      (cipher_finish countingEngFinish
          (⟨PSA_ALG_CBC_PKCS7, 16, 16, ⟨some ⟨16⟩, [], 0⟩⟩ : Operation Nat) 0
          (List.replicate 16 0)).2.2.1 ≠
        (⟨PSA_ALG_CBC_PKCS7, 16, 16, ⟨some ⟨16⟩, [], 0⟩⟩ : Operation Nat) := by
  constructor
  · rfl
  · decide

/-- Claim C7: `cipher_finish` on an operation with a nonzero residual under
a no-padding algorithm (raw ECB or CBC without padding) fails
`InvalidArgument`, writes nothing to the caller's output, and leaves the
operation untouched. -/
theorem cipher_finish_no_padding_residual {σ : Type} (engFin : EngFinishFn σ)
    (operation : Operation σ) (output_size : Nat) (temp0 : List Nat)
    (hres : operation.cipher.unprocessed.length ≠ 0)
    (halg : operation.alg = PSA_ALG_ECB_NO_PADDING ∨
      operation.alg = PSA_ALG_CBC_NO_PADDING) :
    (cipher_finish engFin operation output_size temp0).1 =
        PsaStatus.invalidArgument ∧
      (cipher_finish engFin operation output_size temp0).2.1 = [] ∧
      (cipher_finish engFin operation output_size temp0).2.2.1 = operation := by
  have hcond : (operation.cipher.unprocessed.length != 0 &&
      (operation.alg == PSA_ALG_ECB_NO_PADDING ||
       operation.alg == PSA_ALG_CBC_NO_PADDING)) = true := by
    rcases halg with h | h <;> simp [h, hres]
  rw [cipher_finish, if_pos hcond]
  exact ⟨rfl, rfl, rfl⟩

/-- Witness for C7: residual `[1]` under raw ECB. -/
theorem cipher_finish_no_padding_residual_witness :
    (cipher_finish emptyEngFinish opEcbResidual 16 (List.replicate 16 0)).1 =
      PsaStatus.invalidArgument :=
  (cipher_finish_no_padding_residual emptyEngFinish opEcbResidual 16
    (List.replicate 16 0) (by decide) (Or.inl rfl)).1

/-- Claim C4: on every exit path of `cipher_finish` — the `InvalidArgument`
rejection, an engine finalize failure, the zero-length case, the successful
copy, and the `BufferTooSmall` case — the block-sized scratch buffer is
zeroized before the function returns. -/
theorem cipher_finish_scratch_zeroized {σ : Type} (engFin : EngFinishFn σ)
    (operation : Operation σ) (output_size : Nat) (temp0 : List Nat) :
    (cipher_finish engFin operation output_size temp0).2.2.2 =
      List.replicate MBEDTLS_MAX_BLOCK_LENGTH 0 := by
  rw [cipher_finish]
  split
  · rfl
  · simp only []
    split
    · rfl
    · split
      · rfl
      · split
        · rfl
        · rfl

/-- Claim C9: `cipher_abort` fails `BadState` exactly when the operation's
algorithm field is not a recognized cipher tag (as after
zero-initialization); otherwise it frees the engine context and returns
success; and a repeated call yields the same status as the first, so abort
never faults and is consistent after any partial setup. -/
theorem cipher_abort_spec {σ : Type}
    (mbedtls_cipher_free : CipherCtx σ → CipherCtx σ)
    (operation : Operation σ) :
    cipher_abort mbedtls_cipher_free operation =
        (if PSA_ALG_IS_CIPHER operation.alg then
          (PsaStatus.success,
            { operation with cipher := mbedtls_cipher_free operation.cipher })
        else (PsaStatus.badState, operation)) ∧
      ((cipher_abort mbedtls_cipher_free operation).1 = PsaStatus.badState ↔
        PSA_ALG_IS_CIPHER operation.alg = false) ∧
      (cipher_abort mbedtls_cipher_free
          (cipher_abort mbedtls_cipher_free operation).2).1 =
        (cipher_abort mbedtls_cipher_free operation).1 := by
  cases hb : PSA_ALG_IS_CIPHER operation.alg with
  | false => simp [cipher_abort, hb]
  | true => simp [cipher_abort, hb]

/-- Claim C10: `cipher_setup` writes `iv_size` only for block-built
algorithms other than raw ECB and for the ChaCha20 stream-cipher case; for
every other algorithm/key combination it leaves `iv_size` at the value it
held before the call (so the documented `iv_size = 0` for those cases holds
only for a zero-initialized operation). -/
theorem cipher_setup_iv_size_frame {σ : Type} (eng : SetupEngine σ)
    (info : Nat → Nat → Nat → Option CipherInfo) (operation : Operation σ)
    (attributes : PsaKeyAttributes) (key_buffer : List Nat)
    (key_buffer_size : Nat) (alg : Nat) (dir : MbedtlsOperation)
    (h1 : ¬(alg &&& PSA_ALG_CIPHER_FROM_BLOCK_FLAG ≠ 0 ∧
      alg ≠ PSA_ALG_ECB_NO_PADDING))
    (h2 : ¬(alg = PSA_ALG_STREAM_CIPHER ∧
      attributes.core.type = PSA_KEY_TYPE_CHACHA20)) :
    (cipher_setup eng info operation attributes key_buffer key_buffer_size
        alg dir).2.iv_size = operation.iv_size := by
  have hb1 : (alg &&& PSA_ALG_CIPHER_FROM_BLOCK_FLAG != 0 &&
      alg != PSA_ALG_ECB_NO_PADDING) = false := by
    rcases not_and_or.mp h1 with h | h
    · have h0 : alg &&& PSA_ALG_CIPHER_FROM_BLOCK_FLAG = 0 := not_not.mp h
      simp [h0]
    · have h0 : alg = PSA_ALG_ECB_NO_PADDING := not_not.mp h
      simp [h0]
  have hb2 : (alg == PSA_ALG_STREAM_CIPHER &&
      attributes.core.type == PSA_KEY_TYPE_CHACHA20) = false := by
    rcases not_and_or.mp h2 with h | h <;> simp [h]
  rw [cipher_setup]
  simp only []
  cases hinfo : info alg attributes.core.type attributes.core.bits with
  | none => rw [optionCase_none]
  | some ci =>
    rw [optionCase_some]
    cases hsetup : eng.setup eng.initState ci with
    | error e => rw [exceptCase_error]
    | ok s1 =>
      rw [exceptCase_ok]
      cases hkey : (if attributes.core.type == PSA_KEY_TYPE_DES &&
            attributes.core.bits == 128 then
          eng.setkey s1 (key_buffer.take 16 ++ key_buffer.take 8) 192 dir
        else eng.setkey s1 key_buffer attributes.core.bits dir) with
      | error e => rw [exceptCase_error]
      | ok s2 =>
        rw [exceptCase_ok]
        cases hpad : (if alg == PSA_ALG_CBC_NO_PADDING then
              eng.setPadding s2 MbedtlsPadding.padNone
            else if alg == PSA_ALG_CBC_PKCS7 then
              eng.setPadding s2 MbedtlsPadding.padPkcs7
            else Except.ok s2) with
        | error e => rw [exceptCase_error]
        | ok s3 =>
          rw [exceptCase_ok]
          simp [hb1, hb2]

/-- Witness for C10 at the plain stream-cipher algorithm with an AES key
type: a successful setup leaves the prior `iv_size` value 5 in place. -/
theorem cipher_setup_iv_size_frame_witness :
    (cipher_setup unitEngine allInfo16
        (⟨0, 5, 0, ⟨none, [], ()⟩⟩ : Operation Unit) ⟨⟨PSA_KEY_TYPE_AES, 128⟩⟩
        (List.replicate 16 0) 16 PSA_ALG_STREAM_CIPHER
        MbedtlsOperation.encrypt).2.iv_size = 5 :=
  cipher_setup_iv_size_frame unitEngine allInfo16
    (⟨0, 5, 0, ⟨none, [], ()⟩⟩ : Operation Unit) ⟨⟨PSA_KEY_TYPE_AES, 128⟩⟩
    (List.replicate 16 0) 16 PSA_ALG_STREAM_CIPHER MbedtlsOperation.encrypt
    (by decide) (by decide)

/-- Counterexample to claim C6 as stated: a successful raw-ECB setup on an
operation whose `iv_size` was 7 before the call leaves `iv_size = 7`, not 0
— the source never writes `iv_size` outside the two positive cases. -/
theorem cipher_setup_iv_size_counterexample :
    (cipher_setup unitEngine allInfo16
        (⟨0, 7, 0, ⟨none, [], ()⟩⟩ : Operation Unit) ⟨⟨PSA_KEY_TYPE_AES, 128⟩⟩
        (List.replicate 16 0) 16 PSA_ALG_ECB_NO_PADDING
        MbedtlsOperation.encrypt).1 = PsaStatus.success ∧
      (cipher_setup unitEngine allInfo16
          (⟨0, 7, 0, ⟨none, [], ()⟩⟩ : Operation Unit) ⟨⟨PSA_KEY_TYPE_AES, 128⟩⟩
          (List.replicate 16 0) 16 PSA_ALG_ECB_NO_PADDING
          MbedtlsOperation.encrypt).2.iv_size ≠ 0 := by
  constructor
  · rfl
  · decide

/-- Claim C6 (amended): after a successful `cipher_setup` on an operation
whose `iv_size` was 0 before the call (e.g. zero-initialized), `iv_size`
equals the key type's block length for block-built algorithms other than
raw ECB, 12 for the ChaCha20 stream-cipher case, and 0 otherwise (the
engine calls, when they fail, report a non-success translated status). -/
theorem cipher_setup_iv_size {σ : Type} (eng : SetupEngine σ)
    (info : Nat → Nat → Nat → Option CipherInfo) (operation : Operation σ)
    (attributes : PsaKeyAttributes) (key_buffer : List Nat)
    (key_buffer_size : Nat) (alg : Nat) (dir : MbedtlsOperation)
    (hiv : operation.iv_size = 0)
    (hengS : ∀ s ci, eng.setup s ci ≠ Except.error PsaStatus.success)
    (hengK : ∀ s k b d, eng.setkey s k b d ≠ Except.error PsaStatus.success)
    (hengP : ∀ s p, eng.setPadding s p ≠ Except.error PsaStatus.success)
    (hst : (cipher_setup eng info operation attributes key_buffer
      key_buffer_size alg dir).1 = PsaStatus.success) :
    (cipher_setup eng info operation attributes key_buffer key_buffer_size
        alg dir).2.iv_size =
      (if alg &&& PSA_ALG_CIPHER_FROM_BLOCK_FLAG ≠ 0 ∧
          alg ≠ PSA_ALG_ECB_NO_PADDING then
        PSA_BLOCK_CIPHER_BLOCK_LENGTH attributes.core.type
      else if alg = PSA_ALG_STREAM_CIPHER ∧
          attributes.core.type = PSA_KEY_TYPE_CHACHA20 then 12
      else 0) := by
  rw [cipher_setup] at hst ⊢
  cases hinfo : info alg attributes.core.type attributes.core.bits with
  | none =>
    rw [hinfo, optionCase_none] at hst
    simp at hst
  | some ci =>
    rw [hinfo, optionCase_some] at hst
    rw [optionCase_some]
    cases hsetup : eng.setup eng.initState ci with
    | error e =>
      rw [hsetup, exceptCase_error] at hst
      rw [show e = PsaStatus.success from hst] at hsetup
      exact absurd hsetup (hengS _ _)
    | ok s1 =>
      rw [hsetup, exceptCase_ok] at hst
      rw [exceptCase_ok]
      cases hkey : (if attributes.core.type == PSA_KEY_TYPE_DES &&
            attributes.core.bits == 128 then
          eng.setkey s1 (key_buffer.take 16 ++ key_buffer.take 8) 192 dir
        else eng.setkey s1 key_buffer attributes.core.bits dir) with
      | error e =>
        rw [hkey, exceptCase_error] at hst
        have he : e = PsaStatus.success := hst
        rw [he] at hkey
        by_cases hdes : (attributes.core.type == PSA_KEY_TYPE_DES &&
            attributes.core.bits == 128) = true
        · rw [if_pos hdes] at hkey
          exact absurd hkey (hengK _ _ _ _)
        · rw [if_neg hdes] at hkey
          exact absurd hkey (hengK _ _ _ _)
      | ok s2 =>
        rw [hkey, exceptCase_ok] at hst
        rw [exceptCase_ok]
        cases hpad : (if alg == PSA_ALG_CBC_NO_PADDING then
              eng.setPadding s2 MbedtlsPadding.padNone
            else if alg == PSA_ALG_CBC_PKCS7 then
              eng.setPadding s2 MbedtlsPadding.padPkcs7
            else Except.ok s2) with
        | error e =>
          rw [hpad, exceptCase_error] at hst
          have he : e = PsaStatus.success := hst
          rw [he] at hpad
          by_cases hc1 : (alg == PSA_ALG_CBC_NO_PADDING) = true
          · rw [if_pos hc1] at hpad
            exact absurd hpad (hengP _ _)
          · rw [if_neg hc1] at hpad
            by_cases hc2 : (alg == PSA_ALG_CBC_PKCS7) = true
            · rw [if_pos hc2] at hpad
              exact absurd hpad (hengP _ _)
            · rw [if_neg hc2] at hpad
              exact Except.noConfusion hpad
        | ok s3 =>
          rw [exceptCase_ok]
          by_cases hc1 : alg &&& PSA_ALG_CIPHER_FROM_BLOCK_FLAG ≠ 0 ∧
              alg ≠ PSA_ALG_ECB_NO_PADDING
          · have hbc1 : (alg &&& PSA_ALG_CIPHER_FROM_BLOCK_FLAG != 0 &&
                alg != PSA_ALG_ECB_NO_PADDING) = true := by
              rw [Bool.and_eq_true, bne_iff_ne, bne_iff_ne]
              exact ⟨hc1.1, hc1.2⟩
            rw [if_pos hc1]
            simp [hbc1]
          · have hbc1 : (alg &&& PSA_ALG_CIPHER_FROM_BLOCK_FLAG != 0 &&
                alg != PSA_ALG_ECB_NO_PADDING) = false := by
              rcases not_and_or.mp hc1 with h | h
              · have h0 : alg &&& PSA_ALG_CIPHER_FROM_BLOCK_FLAG = 0 :=
                  not_not.mp h
                simp [h0]
              · have h0 : alg = PSA_ALG_ECB_NO_PADDING := not_not.mp h
                simp [h0]
            rw [if_neg hc1]
            by_cases hc2 : alg = PSA_ALG_STREAM_CIPHER ∧
                attributes.core.type = PSA_KEY_TYPE_CHACHA20
            · have hbc2 : (alg == PSA_ALG_STREAM_CIPHER &&
                  attributes.core.type == PSA_KEY_TYPE_CHACHA20) = true := by
                rw [Bool.and_eq_true, beq_iff_eq, beq_iff_eq]
                exact ⟨hc2.1, hc2.2⟩
              rw [if_pos hc2]
              simp [hbc1, hbc2]
            · have hbc2 : (alg == PSA_ALG_STREAM_CIPHER &&
                  attributes.core.type == PSA_KEY_TYPE_CHACHA20) = false := by
                rcases not_and_or.mp hc2 with h | h <;> simp [h]
              rw [if_neg hc2]
              simp [hbc1, hbc2, hiv]

/-- Witness for C6's amended theorem: CTR over AES on a zero-initialized
operation yields `iv_size = 16`, the AES block length. -/
theorem cipher_setup_iv_size_witness :
    (cipher_setup unitEngine allInfo16
        (⟨0, 0, 0, ⟨none, [], ()⟩⟩ : Operation Unit) ⟨⟨PSA_KEY_TYPE_AES, 128⟩⟩
        (List.replicate 16 0) 16 PSA_ALG_CTR
        MbedtlsOperation.encrypt).2.iv_size = 16 :=
  cipher_setup_iv_size unitEngine allInfo16
    (⟨0, 0, 0, ⟨none, [], ()⟩⟩ : Operation Unit) ⟨⟨PSA_KEY_TYPE_AES, 128⟩⟩
    (List.replicate 16 0) 16 PSA_ALG_CTR MbedtlsOperation.encrypt rfl
    (fun s ci h => by simp [unitEngine] at h)
    (fun s k b d h => by simp [unitEngine] at h)
    (fun s p h => by simp [unitEngine] at h) rfl

/-- Claim C3: for the reduced two-key encoding of Triple-DES (key type DES,
128 key bits), setup behaves exactly as explicit three-key setup with
`K3 = K1`: the full resulting state (status and operation, hence all
subsequent encryption behaviour) coincides with a setup from the 192-bit
key `K1 || K2 || K1`, and the engine's key schedule is invoked with exactly
that 192-bit key (witnessed by the recording engine).  The configuration
lookup is assumed to resolve the reduced encoding to the three-subkey
family's configuration (`info alg DES 128 = info alg DES 192`). -/
theorem cipher_setup_two_key_des {σ : Type} (eng : SetupEngine σ)
    (info : Nat → Nat → Nat → Option CipherInfo) (operation : Operation σ)
    (key_buffer : List Nat) (alg : Nat) (dir : MbedtlsOperation)
    (hkey : key_buffer.length = 16)
    (hinfo : info alg PSA_KEY_TYPE_DES 128 = info alg PSA_KEY_TYPE_DES 192) :
    cipher_setup eng info operation ⟨⟨PSA_KEY_TYPE_DES, 128⟩⟩ key_buffer 16
        alg dir =
      cipher_setup eng info operation ⟨⟨PSA_KEY_TYPE_DES, 192⟩⟩
        (key_buffer ++ key_buffer.take 8) 24 alg dir ∧
    ∀ ci, info alg PSA_KEY_TYPE_DES 128 = some ci →
      (cipher_setup recordEngine info
          (⟨0, 0, 0, ⟨none, [], []⟩⟩ :
            Operation (List (List Nat × Nat × MbedtlsOperation)))
          ⟨⟨PSA_KEY_TYPE_DES, 128⟩⟩ key_buffer 16 alg dir).2.cipher.eng =
        [(key_buffer ++ key_buffer.take 8, 192, dir)] := by
  have htk : key_buffer.take 16 = key_buffer :=
    List.take_of_length_le (by omega)
  constructor
  · rw [cipher_setup, cipher_setup]
    simp only []
    rw [hinfo]
    cases hI : info alg PSA_KEY_TYPE_DES 192 with
    | none => rfl
    | some ci =>
      rw [optionCase_some, optionCase_some]
      cases hS : eng.setup eng.initState ci with
      | error e => rfl
      | ok s1 =>
        simp [htk]
  · intro ci hci
    rw [cipher_setup]
    simp only []
    rw [hci, optionCase_some]
    simp [recordEngine, htk, apply_ite (fun o :
      Operation (List (List Nat × Nat × MbedtlsOperation)) => o.cipher.eng)]

/-- Witness for C3 at a concrete 16-byte key, DES-ECB, with the uniform
configuration lookup. -/
theorem cipher_setup_two_key_des_witness :
    cipher_setup unitEngine allInfo16
        (⟨0, 0, 0, ⟨none, [], ()⟩⟩ : Operation Unit) ⟨⟨PSA_KEY_TYPE_DES, 128⟩⟩
        (List.replicate 16 3) 16 PSA_ALG_ECB_NO_PADDING
        MbedtlsOperation.encrypt =
      cipher_setup unitEngine allInfo16
        (⟨0, 0, 0, ⟨none, [], ()⟩⟩ : Operation Unit) ⟨⟨PSA_KEY_TYPE_DES, 192⟩⟩
        (List.replicate 16 3 ++ (List.replicate 16 3).take 8) 24
        PSA_ALG_ECB_NO_PADDING MbedtlsOperation.encrypt :=
  (cipher_setup_two_key_des unitEngine allInfo16
    (⟨0, 0, 0, ⟨none, [], ()⟩⟩ : Operation Unit) (List.replicate 16 3)
    PSA_ALG_ECB_NO_PADDING MbedtlsOperation.encrypt (by decide) rfl).1

end PsaCipher
